import Mathlib

/-!
# puma-dev: the certificate core (`src/puma/dev/ssl.go`)

A shallow embedding of `SetupOurCert`, `NewCertCache`,
`certCache.GetCertificate` and `makeCert`.

Conventions of the embedding

* A Go `error` is identified with the text its `Error()` method yields.
* A call that returns `(value, error)` becomes a `Result`; a run-time panic
  (nil dereference, index out of range) is a third outcome of its own.
* Everything the functions obtain from outside the process (the random
  source, the clock, the X.509 library, the filesystem, sub-processes) is
  an explicit environment argument, so every definition is a total,
  executable function of its inputs.
* `time.Duration` is a signed 64-bit count of nanoseconds: arithmetic on it
  is wrapped with `int64`.
-/

set_option linter.dupNamespace false
set_option maxRecDepth 100000

namespace PumaDev

/-! ## Errors and results -/

/-- A Go error value, identified by its message text. -/
structure Error where
  msg : String
deriving DecidableEq, Repr

/-- The call `fmt.Errorf(text + "%v", err)`: a new error whose message is the
literal text of the format followed by the message of `err`. -/
def Errorf (text : String) (err : Error) : Error :=
  ⟨text ++ err.msg⟩

/-- Outcome of a Go call of result type `(T, error)`: a value with a nil
error, a nil value with an error, or a run-time panic. -/
inductive Result (α : Type) where
  | ok (val : α)
  | error (err : Error)
  | panic (reason : String)
deriving DecidableEq, Repr

/-! ## Time -/

/-- Wrap an integer to the range of a signed 64-bit machine integer. -/
def int64 (x : Int) : Int :=
  (x + 2 ^ 63) % 2 ^ 64 - 2 ^ 63

/-- A `time.Duration`: nanoseconds, signed 64-bit. -/
abbrev time.Duration := Int

/-- An instant (`time.Time`), as nanoseconds since the epoch. -/
abbrev time.Time := Int

def time.Nanosecond : time.Duration := 1

def time.Microsecond : time.Duration := int64 (1000 * time.Nanosecond)

def time.Millisecond : time.Duration := int64 (1000 * time.Microsecond)

def time.Second : time.Duration := int64 (1000 * time.Millisecond)

def time.Minute : time.Duration := int64 (60 * time.Second)

def time.Hour : time.Duration := int64 (60 * time.Minute)

/-- The method `Time.Add`: the instant `d` after `t`. -/
def time.Time.Add (t : time.Time) (d : time.Duration) : time.Time :=
  t + d

/-! ## Big integers and the random draw -/

/-- The method `(*big.Int).Lsh` on non-negative values: `x << n`. -/
def big.Lsh (x : Nat) (n : Nat) : Nat :=
  x * 2 ^ n

/-- The method `(*big.Int).BitLen`: length of `n` in bits, 0 for 0. -/
def big.BitLen (n : Nat) : Nat :=
  go n n
where
  /-- Count the halvings that take `n` to 0 (at most `fuel` of them). -/
  go : Nat → Nat → Nat
    | 0, _ => 0
    | fuel + 1, n => if n = 0 then 0 else go fuel (n / 2) + 1

/-- The method `(*big.Int).SetBytes`: big-endian value of a byte slice. -/
def big.SetBytes (bytes : List Nat) : Nat :=
  bytes.foldl (fun acc b => acc * 256 + b % 256) 0

/-- The random source `rand.Reader` as seen by one call: the bytes it still
delivers, and the error it reports once they are used up. -/
structure rand.Source where
  bytes : List Nat
  err : Error
deriving DecidableEq, Repr

/-- Clear the high bits of the first byte: `bytes[0] &= uint8(int(1<<b) - 1)`. -/
def rand.maskFirst (b : Nat) : List Nat → List Nat
  | [] => []
  | b0 :: rest => Nat.land (b0 % 256) ((2 ^ b - 1) % 256) :: rest

/-- The rejection loop of `crypto/rand.Int`: read `k` bytes with
`io.ReadFull`, mask the first one, accept the candidate when it is below
`max`. Each round consumes `k` bytes; `fuel` bounds the number of rounds. -/
def rand.draw (max k b : Nat) (err : Error) : Nat → List Nat → Result Nat
  | 0, _ => .error err
  | fuel + 1, tape =>
    if tape.length < k then .error err
    else
      let n := big.SetBytes (rand.maskFirst b (tape.take k))
      if n < max then .ok n else rand.draw max k b err fuel (tape.drop k)

/-- The standard library call `rand.Int(rand.Reader, max)`: a value in
`[0, max)`; panics when `max <= 0`. The candidates are sized by the bit
length of `max - 1`, as current releases of the library do; whatever their
size, a candidate is returned only when it is below `max`. -/
def rand.Int (src : rand.Source) (max : Nat) : Result Nat :=
  if max = 0 then .panic "crypto/rand: argument to Int is <= 0"
  else
    let bitLen := big.BitLen (max - 1)
    if bitLen = 0 then .ok 0
    else
      let k := (bitLen + 7) / 8
      let b := if bitLen % 8 = 0 then 8 else bitLen % 8
      rand.draw max k b src.err (src.bytes.length + 1) src.bytes

/-! ## Certificates -/

/-- The fields of `pkix.Name` that `makeCert` sets. -/
structure pkix.Name where
  Organization : List String
  CommonName : String
deriving DecidableEq, Repr

def x509.KeyUsageDigitalSignature : Nat := 1

def x509.KeyUsageKeyEncipherment : Nat := 4

def x509.ExtKeyUsageServerAuth : Nat := 1

/-- The fields of `x509.Certificate` that `makeCert` sets. -/
structure x509.Certificate where
  SerialNumber : Int
  Subject : pkix.Name
  NotBefore : time.Time
  NotAfter : time.Time
  KeyUsage : Nat
  ExtKeyUsage : List Nat
  DNSNames : List String
deriving DecidableEq, Repr

/-- An ECDSA private key with its public point. -/
structure ecdsa.PrivateKey where
  D : Nat
  X : Nat
  Y : Nat
deriving DecidableEq, Repr

/-- The method `Public()` of an ECDSA private key. -/
def ecdsa.PrivateKey.Public (k : ecdsa.PrivateKey) : Nat × Nat :=
  (k.X, k.Y)

/-- A `crypto.PrivateKey`: the key of the CA as read from disk (kept as its
encoding), or a freshly generated ECDSA key. -/
inductive crypto.PrivateKey where
  | encoded (der : List Nat)
  | ecdsa (key : ecdsa.PrivateKey)
deriving DecidableEq, Repr

/-- A `tls.Certificate`: chain of DER certificates, private key, parsed leaf. -/
structure tls.Certificate where
  Certificate : List (List Nat)
  PrivateKey : crypto.PrivateKey
  Leaf : Option x509.Certificate
deriving DecidableEq, Repr

/-- What one call of `makeCert` obtains from outside: the outcome of
`ecdsa.GenerateKey(elliptic.P256(), rand.Reader)`, the successive readings
of `time.Now()`, the random source as `rand.Int` finds it, and the library
functions `x509.ParseCertificate` and `x509.CreateCertificate`. -/
structure MintEnv where
  GenerateKey : Except Error ecdsa.PrivateKey
  Now : Nat → time.Time
  Reader : rand.Source
  ParseCertificate : List Nat → Except Error x509.Certificate
  CreateCertificate : x509.Certificate → x509.Certificate → Nat × Nat →
    crypto.PrivateKey → Except Error (List Nat)

/-- The function `makeCert(parent, name)` of `ssl.go`. -/
def makeCert (env : MintEnv) (parent : Option tls.Certificate) (name : String) :
    Result tls.Certificate :=
  -- start by generating private key
  match env.GenerateKey with
  | .error err => .error (Errorf "failed to generate private key: " err)
  | .ok privKey =>
    -- create certificate structure with proper values
    let notBefore := env.Now 0
    let notAfter := notBefore.Add (int64 (365 * 24 * time.Hour))
    let serialNumberLimit := big.Lsh 1 128
    match rand.Int env.Reader serialNumberLimit with
    | .panic reason => .panic reason
    | .error err => .error (Errorf "failed to generate serial number: " err)
    | .ok serialNumber =>
      let cert : x509.Certificate :=
        { SerialNumber := serialNumber
          Subject := { Organization := ["Puma-dev Signed"], CommonName := name }
          NotBefore := notBefore
          NotAfter := notAfter
          KeyUsage := Nat.lor x509.KeyUsageKeyEncipherment x509.KeyUsageDigitalSignature
          ExtKeyUsage := [x509.ExtKeyUsageServerAuth]
          DNSNames := [] }
      let cert := { cert with DNSNames := cert.DNSNames ++ [name] }
      match parent with
      | none => .panic "invalid memory address or nil pointer dereference"
      | some parent =>
        match parent.Certificate with
        | [] => .panic "index out of range"
        | der :: _ =>
          match env.ParseCertificate der with
          | .error err => .error err
          | .ok x509parent =>
            match env.CreateCertificate cert x509parent privKey.Public parent.PrivateKey with
            | .error err => .error (Errorf "could not create certificate: " err)
            | .ok derBytes =>
              .ok { Certificate := [derBytes]
                    PrivateKey := crypto.PrivateKey.ecdsa privKey
                    Leaf := some cert }

/-! ## The certificate cache -/

/-- Entry bound to `key` in a list of cache entries (newest first). -/
def lru.peek (key : String) : List (String × tls.Certificate) → Option tls.Certificate
  | [] => none
  | e :: l => if e.1 = key then some e.2 else lru.peek key l

/-- Drop every entry bound to `key`. -/
def lru.remove (key : String) (l : List (String × tls.Certificate)) :
    List (String × tls.Certificate) :=
  l.filter (fun e => e.1 != key)

/-- Put `key` at the front of a list of remembered (evicted) keys. -/
def lru.remember (key : String) (l : List String) : List String :=
  key :: l.filter (fun k => k != key)

/-- Modelled from the spec: the type `lru.ARCCache` of the vendored
golang-lru package, which is not under `src/`. The spec describes it as an
adaptive-replacement cache: a mapping from hostname to certificate, bounded
to a fixed capacity `size`, that tracks recency and frequency of access in
two internal lists (recently-used `t1`, frequently-used `t2`), adapts the
balance `p` between them from observed hit patterns, and evicts the least
valuable entry when the capacity is exceeded. The hit patterns are observed,
as adaptive replacement does, on the keys evicted from either list, which
are remembered in `b1` and `b2`. All lists are kept newest first. No
statement below depends on which entry the cache chooses to evict. -/
structure lru.ARCCache where
  size : Nat
  p : Nat
  t1 : List (String × tls.Certificate)
  b1 : List String
  t2 : List (String × tls.Certificate)
  b2 : List String
deriving DecidableEq, Repr

/-- Modelled from the spec: the constructor `lru.NewARC(size)` of the
vendored golang-lru package: an empty cache of the given capacity. The
source shows that it can fail; it is taken to refuse a capacity that is not
positive. -/
def lru.NewARC (size : Int) : Except Error lru.ARCCache :=
  if size ≤ 0 then .error ⟨"Must provide a positive size"⟩
  else .ok { size := size.toNat, p := 0, t1 := [], b1 := [], t2 := [], b2 := [] }

/-- Modelled from the spec: the hostname-to-certificate mapping the cache
holds, the recently-used list looked at first. -/
def lru.ARCCache.lookup (c : lru.ARCCache) (key : String) : Option tls.Certificate :=
  match lru.peek key c.t1 with
  | some val => some val
  | none => lru.peek key c.t2

/-- Modelled from the spec: the method `Get` of `lru.ARCCache`: on a hit
the stored value is returned and the entry becomes the newest of the
frequently-used list; on a miss nothing changes. -/
def lru.ARCCache.Get (c : lru.ARCCache) (key : String) :
    lru.ARCCache × Option tls.Certificate :=
  match lru.peek key c.t1 with
  | some val =>
    ({ c with t1 := lru.remove key c.t1, t2 := (key, val) :: lru.remove key c.t2 }, some val)
  | none =>
    match lru.peek key c.t2 with
    | some val => ({ c with t2 := (key, val) :: lru.remove key c.t2 }, some val)
    | none => (c, none)

/-- Modelled from the spec: eviction of the least valuable entry: the
oldest of the recently-used list when that list is over its share `p`, the
oldest of the frequently-used list otherwise (and of whichever list is not
empty when the preferred one is). The evicted key is remembered. -/
def lru.ARCCache.replace (c : lru.ARCCache) (b2ContainsKey : Bool) : lru.ARCCache :=
  let fromT1 : Bool :=
    decide (0 < c.t1.length) &&
      (decide (c.p < c.t1.length) || (decide (c.t1.length = c.p) && b2ContainsKey))
  if (fromT1 || c.t2.isEmpty) && !c.t1.isEmpty then
    match c.t1.getLast? with
    | some e => { c with t1 := c.t1.dropLast, b1 := lru.remember e.1 c.b1 }
    | none => c
  else
    match c.t2.getLast? with
    | some e => { c with t2 := c.t2.dropLast, b2 := lru.remember e.1 c.b2 }
    | none => c

/-- Modelled from the spec: eviction when the capacity is reached: a cache
that holds `size` entries gives one up, a cache with room is left alone. -/
def lru.ARCCache.makeRoom (c : lru.ARCCache) (b2ContainsKey : Bool) : lru.ARCCache :=
  if c.size ≤ c.t1.length + c.t2.length then c.replace b2ContainsKey else c

/-- Modelled from the spec: adaptation of the balance `p` from an observed
hit on a remembered key: towards the recently-used list (`recent`) when the
key had been evicted from it, away from it otherwise. -/
def lru.ARCCache.adapt (c : lru.ARCCache) (recent : Bool) : lru.ARCCache :=
  if recent then
    let delta := if c.b1.length < c.b2.length then c.b2.length / c.b1.length else 1
    { c with p := if c.size ≤ c.p + delta then c.size else c.p + delta }
  else
    let delta := if c.b2.length < c.b1.length then c.b1.length / c.b2.length else 1
    { c with p := if c.p ≤ delta then 0 else c.p - delta }

/-- Modelled from the spec: the lists of remembered keys are kept short:
each gives up its oldest key when it is over its share. -/
def lru.ARCCache.trim (c : lru.ARCCache) : lru.ARCCache :=
  let c := if c.size - c.p < c.b1.length then { c with b1 := c.b1.dropLast } else c
  if c.p < c.b2.length then { c with b2 := c.b2.dropLast } else c

/-- Modelled from the spec: the method `Add` of `lru.ARCCache`: binds
`key` to `value`. A key that is already cached moves to the front of the
frequently-used list with the new value. A key remembered as evicted shifts
the balance `p` towards the list it was evicted from and enters the
frequently-used list. Any other key enters the recently-used list. Before a
new entry is inserted into a full cache one old entry is evicted. -/
def lru.ARCCache.Add (c : lru.ARCCache) (key : String) (value : tls.Certificate) :
    lru.ARCCache :=
  if (lru.peek key c.t1).isSome then
    { c with t1 := lru.remove key c.t1, t2 := (key, value) :: lru.remove key c.t2 }
  else if (lru.peek key c.t2).isSome then
    { c with t2 := (key, value) :: lru.remove key c.t2 }
  else if c.b1.contains key then
    let c := (c.adapt true).makeRoom false
    { c with b1 := c.b1.filter (fun k => k != key), t2 := (key, value) :: c.t2 }
  else if c.b2.contains key then
    let c := (c.adapt false).makeRoom true
    { c with b2 := c.b2.filter (fun k => k != key), t2 := (key, value) :: c.t2 }
  else
    let c := (c.makeRoom false).trim
    { c with t1 := (key, value) :: c.t1 }

/-- The type `certCache` of `ssl.go`. Its mutex makes every call of
`GetCertificate` atomic; calls are therefore modelled one after another. -/
structure certCache where
  cache : lru.ARCCache
deriving DecidableEq, Repr

/-- The function `NewCertCache()` of `ssl.go`. -/
def NewCertCache : Result certCache :=
  match lru.NewARC 1024 with
  | .error err => .panic err.msg
  | .ok cache => .ok { cache := cache }

/-- The field of `tls.ClientHelloInfo` that `GetCertificate` reads. -/
structure tls.ClientHelloInfo where
  ServerName : String
deriving DecidableEq, Repr

/-- What a call of `GetCertificate` leaves behind: the cache afterwards, the
returned pair, and the calls of `makeCert` it made (parent and name). -/
structure GetCertificateOutcome where
  cache : certCache
  ret : Result tls.Certificate
  mints : List (Option tls.Certificate × String)

/-- The method `(*certCache).GetCertificate(clientHello)` of `ssl.go`;
`CACert` is the package variable of that name (nil until it is set). -/
def certCache.GetCertificate (env : MintEnv) (CACert : Option tls.Certificate)
    (c : certCache) (clientHello : tls.ClientHelloInfo) : GetCertificateOutcome :=
  let name := clientHello.ServerName
  match c.cache.Get name with
  | (cache, some val) => { cache := { cache := cache }, ret := .ok val, mints := [] }
  | (cache, none) =>
    match makeCert env CACert name with
    | .panic reason =>
      { cache := { cache := cache }, ret := .panic reason, mints := [(CACert, name)] }
    | .error err =>
      { cache := { cache := cache }, ret := .error err, mints := [(CACert, name)] }
    | .ok cert =>
      { cache := { cache := cache.Add name cert }, ret := .ok cert, mints := [(CACert, name)] }

/-- The hostname-to-certificate mapping of a `certCache`. -/
def certCache.lookup (c : certCache) (name : String) : Option tls.Certificate :=
  c.cache.lookup name

/-- A sequence of `GetCertificate` calls, one environment and one hostname
per call: the cache after the last call and the value each call returned. -/
def certCache.serve (CACert : Option tls.Certificate) :
    certCache → List (MintEnv × String) → certCache × List (Result tls.Certificate)
  | c, [] => (c, [])
  | c, (env, name) :: rest =>
    let out := c.GetCertificate env CACert { ServerName := name }
    let tail := certCache.serve CACert out.cache rest
    (tail.1, out.ret :: tail.2)

/-! ## Bootstrap of the certificate authority -/

/-- A call that `SetupOurCert` makes to the outside. -/
inductive Call where
  | MkdirAll (path : String) (perm : Nat)
  | LoadX509KeyPair (certFile keyFile : String)
  | Run (script : String)
  | TrustCert (cert : String)
deriving DecidableEq, Repr

/-- What `SetupOurCert` works against, over a state `W` of the outside
world (filesystem, trust store). `dir` is the value of
`mustExpand(supportDir)` and `Join` is `filepath.Join`; `MkdirAll` and
`LoadX509KeyPair` are the library calls; `Run script` is
`exec.Command("sh", "-c", script).Run()`.

Modelled from the spec: `TrustCert`, the trust installer, a function of this
package that is not under `src/`: it is handed the path of the new CA
certificate, registers it with the trust store of the system and reports
success or failure. -/
structure SetupEnv (W : Type) where
  dir : String
  Join : String → String → String
  MkdirAll : W → String → Nat → W × Option Error
  LoadX509KeyPair : W → String → String → Except Error tls.Certificate
  Run : W → String → W × Option Error
  TrustCert : W → String → W × Option Error

/-- What a run of `SetupOurCert` leaves behind: the outside world, the
package variable `CACert`, the returned error (none for nil) and the calls
made, in order. -/
structure SetupOutcome (W : Type) where
  world : W
  CACert : Option tls.Certificate
  err : Option Error
  calls : List Call

/-- The shell command of `SetupOurCert` for the two file names. -/
def opensslCommand (key cert : String) : String :=
  "openssl req -newkey rsa:2048 -batch -x509 -sha256 -nodes -subj " ++
    "\"/C=US/O=Developer Certificate/CN=Puma-dev CA\" -keyout '" ++ key ++
    "' -out '" ++ cert ++ "' -days 9999"

/-- The function `SetupOurCert()` of `ssl.go`, started in world `w` with
the package variable `CACert` holding `CACert`. -/
def SetupOurCert {W : Type} (env : SetupEnv W) (w : W) (CACert : Option tls.Certificate) :
    SetupOutcome W :=
  let dir := env.dir
  match env.MkdirAll w dir 0o700 with
  | (w1, some err) =>
    { world := w1, CACert := CACert, err := some err, calls := [.MkdirAll dir 0o700] }
  | (w1, none) =>
    let key := env.Join dir "key.pem"
    let cert := env.Join dir "cert.pem"
    match env.LoadX509KeyPair w1 cert key with
    | .ok tlsCert =>
      { world := w1, CACert := some tlsCert, err := none,
        calls := [.MkdirAll dir 0o700, .LoadX509KeyPair cert key] }
    | .error _ =>
      match env.Run w1 (opensslCommand key cert) with
      | (w2, some err) =>
        { world := w2, CACert := CACert, err := some err,
          calls := [.MkdirAll dir 0o700, .LoadX509KeyPair cert key,
            .Run (opensslCommand key cert)] }
      | (w2, none) =>
        match env.TrustCert w2 cert with
        | (w3, err) =>
          { world := w3, CACert := CACert, err := err,
            calls := [.MkdirAll dir 0o700, .LoadX509KeyPair cert key,
              .Run (opensslCommand key cert), .TrustCert cert] }

/-! ## Auxiliary definitions for the statements -/

/-- The certificate structure `makeCert` fills in, for a given issuance
time, serial number and hostname. -/
def leafTemplate (notBefore : time.Time) (serialNumber : Nat) (name : String) :
    x509.Certificate :=
  { SerialNumber := serialNumber
    Subject := { Organization := ["Puma-dev Signed"], CommonName := name }
    NotBefore := notBefore
    NotAfter := notBefore.Add (int64 (365 * 24 * time.Hour))
    KeyUsage := 5
    ExtKeyUsage := [x509.ExtKeyUsageServerAuth]
    DNSNames := [name] }

/-- The form of the errors `x509.ParseCertificate` reports: they are made
in the packages `crypto/x509` and `encoding/asn1`, whose messages begin with
the name of the package, "x509: " or "asn1: ". -/
def x509.ParserMessage (e : Error) : Prop :=
  e.msg.data.take 6 = "x509: ".data ∨ e.msg.data.take 6 = "asn1: ".data

instance (e : Error) : Decidable (x509.ParserMessage e) := by
  unfold x509.ParserMessage
  infer_instance

/-- The leaf of `cert` names `h` and nothing else: its list of Subject
Alternative Names is `[h]` and its common name is `h`. -/
def MintedFor (h : String) (cert : tls.Certificate) : Prop :=
  cert.Leaf.map (fun leaf => (leaf.DNSNames, leaf.Subject.CommonName)) = some ([h], h)

instance (h : String) (cert : tls.Certificate) : Decidable (MintedFor h cert) := by
  unfold MintedFor
  infer_instance

/-- Every entry of the cache holds a certificate minted for its key. -/
def certCache.Sound (c : certCache) : Prop :=
  ∀ e, e ∈ c.cache.t1 ∨ e ∈ c.cache.t2 → MintedFor e.1 e.2

/-- The cache is within its capacity: it has a positive capacity and holds
no more entries than that. -/
def lru.ARCCache.Bounded (c : lru.ARCCache) : Prop :=
  0 < c.size ∧ c.t1.length + c.t2.length ≤ c.size

/-! ## Sample inputs -/

/-- A CA identity as `tls.LoadX509KeyPair` delivers it: a chain of one
certificate and the key that goes with it. -/
def sampleCA : tls.Certificate :=
  { Certificate := [[48, 130, 3, 9]], PrivateKey := .encoded [48, 130, 4, 164], Leaf := none }

/-- The parsed certificate of `sampleCA`. -/
def sampleIssuer : x509.Certificate :=
  { SerialNumber := 9
    Subject := { Organization := ["Developer Certificate"], CommonName := "Puma-dev CA" }
    NotBefore := 1600000000000000000
    NotAfter := 2463913600000000000
    KeyUsage := 0
    ExtKeyUsage := []
    DNSNames := [] }

/-- Outside world in which every step of `makeCert` succeeds. -/
def sampleEnv : MintEnv :=
  { GenerateKey := .ok { D := 3, X := 5, Y := 7 }
    Now := fun _ => 1700000000000000000
    Reader := { bytes := [1, 2, 3, 4, 5, 6, 7, 8, 9, 10, 11, 12, 13, 14, 15, 16],
                err := { msg := "unexpected EOF" } }
    ParseCertificate := fun _ => .ok sampleIssuer
    CreateCertificate := fun _ _ _ _ => .ok [48, 130, 1, 1] }

/-- Outside world in which key generation fails. -/
def keyFailsEnv : MintEnv :=
  { sampleEnv with GenerateKey := .error { msg := "EOF" } }

/-- Outside world in which parsing the CA certificate fails, with the
message the parser gives for a chain that is no certificate. -/
def parseFailsEnv : MintEnv :=
  { sampleEnv with
    ParseCertificate := fun _ => .error { msg := "x509: malformed certificate" } }

/-- Outside world in which signing fails. -/
def signFailsEnv : MintEnv :=
  { sampleEnv with CreateCertificate := fun _ _ _ _ => .error { msg := "boom" } }

/-- The certificate `makeCert` yields for `a.test` in `sampleEnv`. -/
def sampleLeaf : tls.Certificate :=
  { Certificate := [[48, 130, 1, 1]]
    PrivateKey := crypto.PrivateKey.ecdsa { D := 3, X := 5, Y := 7 }
    Leaf := some (leafTemplate 1700000000000000000 1339673755198158349044581307228491536
      "a.test") }

/-- The cache `NewCertCache` builds. -/
def emptyCache : certCache :=
  { cache := { size := 1024, p := 0, t1 := [], b1 := [], t2 := [], b2 := [] } }

/-- A cache that holds `sampleLeaf` under `a.test`. -/
def warmCache : certCache :=
  { cache := { size := 1024, p := 0, t1 := [("a.test", sampleLeaf)], b1 := [], t2 := [],
               b2 := [] } }

/-- A world for `SetupOurCert` whose state says whether `key.pem` and
`cert.pem` hold the pair `sampleCA`: the directory can be created, the
generation command writes the pair, and the trust installer answers
`trust`. -/
def sampleSetup (trust : Option Error) : SetupEnv Bool :=
  { dir := "/home/dev/.puma-dev"
    Join := fun d f => d ++ "/" ++ f
    MkdirAll := fun w _ _ => (w, none)
    LoadX509KeyPair := fun w _ _ =>
      if w then .ok sampleCA else .error { msg := "open cert.pem: no such file or directory" }
    Run := fun _ _ => (true, none)
    TrustCert := fun w _ => (w, trust) }

/-! ## Lists of cache entries -/

theorem lru.peek_cons_self (key : String) (v : tls.Certificate)
    (l : List (String × tls.Certificate)) : lru.peek key ((key, v) :: l) = some v := by
  simp [lru.peek]

theorem lru.peek_cons_ne {key k : String} (hne : k ≠ key) (v : tls.Certificate)
    (l : List (String × tls.Certificate)) : lru.peek k ((key, v) :: l) = lru.peek k l := by
  simp [lru.peek, Ne.symm hne]

theorem lru.remove_cons (key : String) (e : String × tls.Certificate)
    (l : List (String × tls.Certificate)) :
    lru.remove key (e :: l) = if e.1 = key then lru.remove key l else e :: lru.remove key l := by
  by_cases h : e.1 = key <;> simp [lru.remove, List.filter_cons, h]

theorem lru.peek_remove_self (key : String) (l : List (String × tls.Certificate)) :
    lru.peek key (lru.remove key l) = none := by
  induction l with
  | nil => rfl
  | cons e l ih =>
    rw [lru.remove_cons]
    by_cases h : e.1 = key
    · simpa [h] using ih
    · simpa [h, lru.peek] using ih

theorem lru.peek_remove_ne {key k : String} (hne : k ≠ key)
    (l : List (String × tls.Certificate)) :
    lru.peek k (lru.remove key l) = lru.peek k l := by
  induction l with
  | nil => rfl
  | cons e l ih =>
    obtain ⟨k0, v0⟩ := e
    rw [lru.remove_cons]
    by_cases h : k0 = key
    · subst h
      have hk : ¬ k0 = k := fun h2 => hne h2.symm
      simp [lru.peek, hk, ih]
    · by_cases h2 : k0 = k
      · subst h2
        simp [h, lru.peek]
      · simp [h, lru.peek, h2, ih]

/-- An entry found under `key` is an entry of the list, stored under `key`. -/
theorem lru.mem_of_peek {key : String} {v : tls.Certificate}
    {l : List (String × tls.Certificate)} (h : lru.peek key l = some v) : (key, v) ∈ l := by
  induction l with
  | nil => simp [lru.peek] at h
  | cons e l ih =>
    by_cases hk : e.1 = key
    · have hv : e.2 = v := by simpa [lru.peek, hk] using h
      have he : e = (key, v) := Prod.ext hk hv
      simp [he]
    · have h2 : lru.peek key l = some v := by simpa [lru.peek, hk] using h
      exact List.mem_cons_of_mem _ (ih h2)

/-- Nothing is found under a key that no entry of the list carries. -/
theorem lru.peek_eq_none {key : String} {l : List (String × tls.Certificate)}
    (h : ∀ e ∈ l, e.1 ≠ key) : lru.peek key l = none := by
  induction l with
  | nil => rfl
  | cons e l ih =>
    have hk : ¬ e.1 = key := h e (List.mem_cons_self _ _)
    simpa [lru.peek, hk] using ih fun x hx => h x (List.mem_cons_of_mem _ hx)

theorem lru.key_ne_of_peek_none {key : String} {l : List (String × tls.Certificate)}
    (h : lru.peek key l = none) : ∀ e ∈ l, e.1 ≠ key := by
  induction l with
  | nil => simp
  | cons e l ih =>
    by_cases hk : e.1 = key
    · simp [lru.peek, hk] at h
    · have h2 : lru.peek key l = none := by simpa [lru.peek, hk] using h
      intro x hx
      rcases List.mem_cons.mp hx with rfl | hx
      · exact hk
      · exact ih h2 x hx

theorem lru.peek_dropLast_none {key : String} {l : List (String × tls.Certificate)}
    (h : lru.peek key l = none) : lru.peek key l.dropLast = none :=
  lru.peek_eq_none fun e he => lru.key_ne_of_peek_none h e (List.mem_of_mem_dropLast he)

/-! ## The cache operations -/

/-- `Get` answers with the mapping and leaves the mapping as it was. -/
theorem lru.ARCCache.Get_spec (c : lru.ARCCache) (key : String) :
    (c.Get key).2 = c.lookup key ∧ ∀ k, (c.Get key).1.lookup k = c.lookup k := by
  unfold lru.ARCCache.Get lru.ARCCache.lookup
  cases h1 : lru.peek key c.t1 with
  | some val =>
    refine ⟨rfl, fun k => ?_⟩
    by_cases hk : k = key
    · subst hk
      simp [lru.peek_remove_self, lru.peek_cons_self, h1]
    · simp [lru.peek_remove_ne hk, lru.peek_cons_ne hk]
  | none =>
    cases h2 : lru.peek key c.t2 with
    | some val =>
      refine ⟨rfl, fun k => ?_⟩
      by_cases hk : k = key
      · subst hk
        simp [lru.peek_cons_self, h1, h2]
      · simp [lru.peek_remove_ne hk, lru.peek_cons_ne hk]
    | none => exact ⟨rfl, fun k => rfl⟩

/-- On a miss `Get` hands the cache back untouched. -/
theorem lru.ARCCache.Get_miss {c : lru.ARCCache} {key : String}
    (h : c.lookup key = none) : c.Get key = (c, none) := by
  unfold lru.ARCCache.lookup at h
  unfold lru.ARCCache.Get
  cases h1 : lru.peek key c.t1 with
  | some val => simp [h1] at h
  | none =>
    have h2 : lru.peek key c.t2 = none := by simpa [h1] using h
    simp [h2]

/-- Eviction only shortens the two lists, by their oldest entry. -/
theorem lru.ARCCache.replace_lists (c : lru.ARCCache) (b : Bool) :
    ((c.replace b).t1 = c.t1 ∨ (c.replace b).t1 = c.t1.dropLast) ∧
      ((c.replace b).t2 = c.t2 ∨ (c.replace b).t2 = c.t2.dropLast) := by
  unfold lru.ARCCache.replace
  dsimp only
  split
  · split <;> simp
  · split <;> simp

theorem lru.ARCCache.makeRoom_lists (c : lru.ARCCache) (b : Bool) :
    ((c.makeRoom b).t1 = c.t1 ∨ (c.makeRoom b).t1 = c.t1.dropLast) ∧
      ((c.makeRoom b).t2 = c.t2 ∨ (c.makeRoom b).t2 = c.t2.dropLast) := by
  unfold lru.ARCCache.makeRoom
  split
  · exact lru.ARCCache.replace_lists c b
  · exact ⟨Or.inl rfl, Or.inl rfl⟩

theorem lru.ARCCache.adapt_lists (c : lru.ARCCache) (recent : Bool) :
    (c.adapt recent).t1 = c.t1 ∧ (c.adapt recent).t2 = c.t2 := by
  unfold lru.ARCCache.adapt
  split <;> exact ⟨rfl, rfl⟩

theorem lru.ARCCache.trim_lists (c : lru.ARCCache) :
    c.trim.t1 = c.t1 ∧ c.trim.t2 = c.t2 := by
  unfold lru.ARCCache.trim
  dsimp only
  split <;> split <;> exact ⟨rfl, rfl⟩

/-- The lists after `Add`, in terms of the lists before: the new entry sits
at the front of one of them, and what else they hold was there before. -/
theorem lru.ARCCache.Add_lists (c : lru.ARCCache) (key : String) (value : tls.Certificate) :
    ∃ l1 l2, (l1 = c.t1 ∨ l1 = c.t1.dropLast) ∧ (l2 = c.t2 ∨ l2 = c.t2.dropLast) ∧
      (((c.Add key value).t1 = lru.remove key c.t1 ∧
          (c.Add key value).t2 = (key, value) :: lru.remove key c.t2) ∨
        (lru.peek key c.t1 = none ∧ (c.Add key value).t1 = c.t1 ∧
          (c.Add key value).t2 = (key, value) :: lru.remove key c.t2) ∨
        (lru.peek key c.t1 = none ∧ (c.Add key value).t1 = l1 ∧
          (c.Add key value).t2 = (key, value) :: l2) ∨
        (lru.peek key c.t1 = none ∧ lru.peek key c.t2 = none ∧
          (c.Add key value).t1 = (key, value) :: l1 ∧ (c.Add key value).t2 = l2)) := by
  unfold lru.ARCCache.Add
  by_cases h1 : (lru.peek key c.t1).isSome
  · exact ⟨c.t1, c.t2, Or.inl rfl, Or.inl rfl, Or.inl (by simp [h1])⟩
  · have h1n : lru.peek key c.t1 = none := by simpa using h1
    rw [if_neg h1]
    by_cases h2 : (lru.peek key c.t2).isSome
    · exact ⟨c.t1, c.t2, Or.inl rfl, Or.inl rfl, Or.inr (Or.inl (by simp [h1n, h2]))⟩
    · have h2n : lru.peek key c.t2 = none := by simpa using h2
      rw [if_neg h2]
      by_cases h3 : c.b1.contains key = true
      · rw [if_pos h3]
        have hr := lru.ARCCache.makeRoom_lists (c.adapt true) false
        rw [(lru.ARCCache.adapt_lists c true).1, (lru.ARCCache.adapt_lists c true).2] at hr
        exact ⟨_, _, hr.1, hr.2, Or.inr (Or.inr (Or.inl ⟨h1n, rfl, rfl⟩))⟩
      · rw [if_neg h3]
        by_cases h4 : c.b2.contains key = true
        · rw [if_pos h4]
          have hr := lru.ARCCache.makeRoom_lists (c.adapt false) true
          rw [(lru.ARCCache.adapt_lists c false).1, (lru.ARCCache.adapt_lists c false).2] at hr
          exact ⟨_, _, hr.1, hr.2, Or.inr (Or.inr (Or.inl ⟨h1n, rfl, rfl⟩))⟩
        · rw [if_neg h4]
          have hr := lru.ARCCache.makeRoom_lists c false
          have ht := lru.ARCCache.trim_lists (c.makeRoom false)
          refine ⟨_, _, hr.1, hr.2, Or.inr (Or.inr (Or.inr ⟨h1n, h2n, ?_, ?_⟩))⟩
          · exact congrArg _ ht.1
          · exact ht.2

/-- What is added is what is found under its key afterwards. -/
theorem lru.ARCCache.lookup_Add_self (c : lru.ARCCache) (key : String)
    (value : tls.Certificate) : (c.Add key value).lookup key = some value := by
  have hdrop : ∀ l1, (l1 = c.t1 ∨ l1 = c.t1.dropLast) → lru.peek key c.t1 = none →
      lru.peek key l1 = none := by
    intro l1 hl hn
    rcases hl with rfl | rfl
    · exact hn
    · exact lru.peek_dropLast_none hn
  obtain ⟨l1, l2, hl1, _, hcase⟩ := lru.ARCCache.Add_lists c key value
  unfold lru.ARCCache.lookup
  rcases hcase with ⟨e1, e2⟩ | ⟨hn, e1, e2⟩ | ⟨hn, e1, e2⟩ | ⟨hn, _, e1, _⟩
  · rw [e1, e2, lru.peek_remove_self, lru.peek_cons_self]
  · rw [e1, e2, hn, lru.peek_cons_self]
  · rw [e1, e2, hdrop l1 hl1 hn, lru.peek_cons_self]
  · rw [e1, lru.peek_cons_self]

theorem lru.mem_of_mem_remove {key : String} {e : String × tls.Certificate}
    {l : List (String × tls.Certificate)} (h : e ∈ lru.remove key l) : e ∈ l :=
  (List.mem_filter.mp h).1

/-- Every entry of the cache after `Add` is the new one or was there before. -/
theorem lru.ARCCache.mem_Add {c : lru.ARCCache} {key : String} {value : tls.Certificate}
    {e : String × tls.Certificate}
    (h : e ∈ (c.Add key value).t1 ∨ e ∈ (c.Add key value).t2) :
    e = (key, value) ∨ e ∈ c.t1 ∨ e ∈ c.t2 := by
  have hsub1 : ∀ l1, (l1 = c.t1 ∨ l1 = c.t1.dropLast) → e ∈ l1 → e ∈ c.t1 := by
    intro l1 hl he
    rcases hl with rfl | rfl
    · exact he
    · exact List.mem_of_mem_dropLast he
  have hsub2 : ∀ l2, (l2 = c.t2 ∨ l2 = c.t2.dropLast) → e ∈ l2 → e ∈ c.t2 := by
    intro l2 hl he
    rcases hl with rfl | rfl
    · exact he
    · exact List.mem_of_mem_dropLast he
  obtain ⟨l1, l2, hl1, hl2, hcase⟩ := lru.ARCCache.Add_lists c key value
  rcases hcase with ⟨e1, e2⟩ | ⟨_, e1, e2⟩ | ⟨_, e1, e2⟩ | ⟨_, _, e1, e2⟩
  · rw [e1, e2] at h
    rcases h with h | h
    · exact Or.inr (Or.inl (lru.mem_of_mem_remove h))
    · rcases List.mem_cons.mp h with h | h
      · exact Or.inl h
      · exact Or.inr (Or.inr (lru.mem_of_mem_remove h))
  · rw [e1, e2] at h
    rcases h with h | h
    · exact Or.inr (Or.inl h)
    · rcases List.mem_cons.mp h with h | h
      · exact Or.inl h
      · exact Or.inr (Or.inr (lru.mem_of_mem_remove h))
  · rw [e1, e2] at h
    rcases h with h | h
    · exact Or.inr (Or.inl (hsub1 l1 hl1 h))
    · rcases List.mem_cons.mp h with h | h
      · exact Or.inl h
      · exact Or.inr (Or.inr (hsub2 l2 hl2 h))
  · rw [e1, e2] at h
    rcases h with h | h
    · rcases List.mem_cons.mp h with h | h
      · exact Or.inl h
      · exact Or.inr (Or.inl (hsub1 l1 hl1 h))
    · exact Or.inr (Or.inr (hsub2 l2 hl2 h))

/-- Every entry of the cache after `Get` was there before. -/
theorem lru.ARCCache.mem_Get {c : lru.ARCCache} {key : String} {e : String × tls.Certificate}
    (h : e ∈ (c.Get key).1.t1 ∨ e ∈ (c.Get key).1.t2) : e ∈ c.t1 ∨ e ∈ c.t2 := by
  unfold lru.ARCCache.Get at h
  cases h1 : lru.peek key c.t1 with
  | some val =>
    simp only [h1] at h
    rcases h with h | h
    · exact Or.inl (lru.mem_of_mem_remove h)
    · rcases List.mem_cons.mp h with h | h
      · exact Or.inl (h ▸ lru.mem_of_peek h1)
      · exact Or.inr (lru.mem_of_mem_remove h)
  | none =>
    cases h2 : lru.peek key c.t2 with
    | some val =>
      simp only [h1, h2] at h
      rcases h with h | h
      · exact Or.inl h
      · rcases List.mem_cons.mp h with h | h
        · exact Or.inr (h ▸ lru.mem_of_peek h2)
        · exact Or.inr (lru.mem_of_mem_remove h)
    | none =>
      simp only [h1, h2] at h
      exact h

/-- What the mapping yields under a key is an entry of one of the lists. -/
theorem lru.ARCCache.mem_of_lookup {c : lru.ARCCache} {key : String} {v : tls.Certificate}
    (h : c.lookup key = some v) : (key, v) ∈ c.t1 ∨ (key, v) ∈ c.t2 := by
  unfold lru.ARCCache.lookup at h
  cases h1 : lru.peek key c.t1 with
  | some val =>
    rw [h1] at h
    exact Or.inl (lru.mem_of_peek (h1.trans h))
  | none =>
    rw [h1] at h
    exact Or.inr (lru.mem_of_peek h)

/-! ## The cache stays within its capacity -/

theorem lru.length_remove_le (key : String) (l : List (String × tls.Certificate)) :
    (lru.remove key l).length ≤ l.length :=
  List.length_filter_le _ l

/-- Removing a key that is present makes the list shorter. -/
theorem lru.length_remove_lt {key : String} {v : tls.Certificate}
    {l : List (String × tls.Certificate)} (h : lru.peek key l = some v) :
    (lru.remove key l).length < l.length := by
  induction l with
  | nil => simp [lru.peek] at h
  | cons e l ih =>
    rw [lru.remove_cons]
    by_cases hk : e.1 = key
    · rw [if_pos hk, List.length_cons]
      exact Nat.lt_succ_of_le (lru.length_remove_le key l)
    · have h2 : lru.peek key l = some v := by simpa [lru.peek, hk] using h
      rw [if_neg hk, List.length_cons, List.length_cons]
      exact Nat.succ_lt_succ (ih h2)

/-- Eviction takes exactly one entry out of a cache that is not empty, and
never changes the capacity. -/
theorem lru.ARCCache.replace_length (c : lru.ARCCache) (b : Bool)
    (h : 0 < c.t1.length + c.t2.length) :
    (c.replace b).t1.length + (c.replace b).t2.length + 1 = c.t1.length + c.t2.length ∧
      (c.replace b).size = c.size := by
  unfold lru.ARCCache.replace
  dsimp only
  split
  · rename_i hcond
    have hne : c.t1 ≠ [] := by
      intro hnil
      simp [hnil] at hcond
    obtain ⟨e, he⟩ : ∃ e, c.t1.getLast? = some e :=
      ⟨c.t1.getLast hne, List.getLast?_eq_getLast _ hne⟩
    have hlen : 0 < c.t1.length := List.length_pos.mpr hne
    simp only [he, List.length_dropLast]
    exact ⟨by omega, trivial⟩
  · rename_i hcond
    have hne : c.t2 ≠ [] := by
      intro hnil
      have h1 : c.t1 ≠ [] := by
        intro h1
        simp [hnil, h1] at h
      cases ht : c.t1 with
      | nil => exact h1 ht
      | cons x xs => simp [hnil, ht] at hcond
    obtain ⟨e, he⟩ : ∃ e, c.t2.getLast? = some e :=
      ⟨c.t2.getLast hne, List.getLast?_eq_getLast _ hne⟩
    have hlen : 0 < c.t2.length := List.length_pos.mpr hne
    simp only [he, List.length_dropLast]
    exact ⟨by omega, trivial⟩

/-- After making room a cache within its capacity has room for one entry. -/
theorem lru.ARCCache.makeRoom_length (c : lru.ARCCache) (b : Bool) (hc : c.Bounded) :
    (c.makeRoom b).t1.length + (c.makeRoom b).t2.length + 1 ≤ c.size ∧
      (c.makeRoom b).size = c.size := by
  unfold lru.ARCCache.makeRoom
  obtain ⟨hpos, hle⟩ := hc
  split
  · have hr := lru.ARCCache.replace_length c b (by omega)
    exact ⟨by omega, hr.2⟩
  · exact ⟨by omega, rfl⟩

theorem lru.ARCCache.adapt_bounded (c : lru.ARCCache) (recent : Bool) (hc : c.Bounded) :
    (c.adapt recent).Bounded := by
  unfold lru.ARCCache.adapt
  split <;> exact hc

theorem lru.ARCCache.trim_size (c : lru.ARCCache) : c.trim.size = c.size := by
  unfold lru.ARCCache.trim
  dsimp only
  split <;> split <;> rfl

/-- `Get` keeps the cache within its capacity. -/
theorem lru.ARCCache.Get_bounded (c : lru.ARCCache) (key : String) (hc : c.Bounded) :
    (c.Get key).1.Bounded := by
  obtain ⟨hpos, hle⟩ := hc
  unfold lru.ARCCache.Get
  cases h1 : lru.peek key c.t1 with
  | some val =>
    have ha := lru.length_remove_lt h1
    have hb := lru.length_remove_le key c.t2
    exact ⟨hpos, by simp only [List.length_cons]; omega⟩
  | none =>
    cases h2 : lru.peek key c.t2 with
    | some val =>
      have ha := lru.length_remove_lt h2
      exact ⟨hpos, by simp only [List.length_cons]; omega⟩
    | none => exact ⟨hpos, hle⟩

/-- `Add` keeps the cache within its capacity: a full cache gives up an old
entry before it takes the new one. -/
theorem lru.ARCCache.Add_bounded (c : lru.ARCCache) (key : String) (value : tls.Certificate)
    (hc : c.Bounded) : (c.Add key value).Bounded := by
  have hpos := hc.1
  have hle := hc.2
  unfold lru.ARCCache.Add
  cases h1 : lru.peek key c.t1 with
  | some val =>
    have ha := lru.length_remove_lt h1
    have hb := lru.length_remove_le key c.t2
    simp only [Option.isSome_some, if_true]
    exact ⟨hpos, by simp only [List.length_cons]; omega⟩
  | none =>
    cases h2 : lru.peek key c.t2 with
    | some val =>
      have ha := lru.length_remove_lt h2
      simp only [Option.isSome_none, Option.isSome_some, if_true, Bool.false_eq_true, if_false]
      exact ⟨hpos, by simp only [List.length_cons]; omega⟩
    | none =>
      simp only [Option.isSome_none, Bool.false_eq_true, if_false]
      have hsize : ∀ recent, (c.adapt recent).size = c.size := by
        intro recent
        unfold lru.ARCCache.adapt
        split <;> rfl
      split
      · obtain ⟨hr1, hr2⟩ := lru.ARCCache.makeRoom_length (c.adapt true) false
          (lru.ARCCache.adapt_bounded c true hc)
        have hs := hsize true
        refine ⟨?_, ?_⟩
        · show 0 < ((c.adapt true).makeRoom false).size
          omega
        · show ((c.adapt true).makeRoom false).t1.length +
            ((key, value) :: ((c.adapt true).makeRoom false).t2).length ≤
            ((c.adapt true).makeRoom false).size
          rw [List.length_cons]
          omega
      · split
        · obtain ⟨hr1, hr2⟩ := lru.ARCCache.makeRoom_length (c.adapt false) true
            (lru.ARCCache.adapt_bounded c false hc)
          have hs := hsize false
          refine ⟨?_, ?_⟩
          · show 0 < ((c.adapt false).makeRoom true).size
            omega
          · show ((c.adapt false).makeRoom true).t1.length +
              ((key, value) :: ((c.adapt false).makeRoom true).t2).length ≤
              ((c.adapt false).makeRoom true).size
            rw [List.length_cons]
            omega
        · obtain ⟨hr1, hr2⟩ := lru.ARCCache.makeRoom_length c false hc
          obtain ⟨ht1, ht2⟩ := lru.ARCCache.trim_lists (c.makeRoom false)
          have hs := lru.ARCCache.trim_size (c.makeRoom false)
          refine ⟨?_, ?_⟩
          · show 0 < (c.makeRoom false).trim.size
            omega
          · show ((key, value) :: (c.makeRoom false).trim.t1).length +
              (c.makeRoom false).trim.t2.length ≤ (c.makeRoom false).trim.size
            rw [List.length_cons, ht1, ht2]
            omega

/-- `GetCertificate` keeps the cache within its capacity. -/
theorem certCache.GetCertificate_bounded (env : MintEnv) (CACert : Option tls.Certificate)
    (c : certCache) (hello : tls.ClientHelloInfo) (hc : c.cache.Bounded) :
    (c.GetCertificate env CACert hello).cache.cache.Bounded := by
  have hg := lru.ARCCache.Get_bounded c.cache hello.ServerName hc
  unfold certCache.GetCertificate
  dsimp only
  rcases hget : c.cache.Get hello.ServerName with ⟨cache, r⟩
  rw [hget] at hg
  cases r with
  | some val => exact hg
  | none =>
    dsimp only
    cases makeCert env CACert hello.ServerName with
    | panic reason => exact hg
    | error err => exact hg
    | ok cert => exact lru.ARCCache.Add_bounded cache hello.ServerName cert hg

/-! ## `GetCertificate` -/

/-- The hit path of `GetCertificate`, as an equation. -/
theorem certCache.GetCertificate_of_hit (env : MintEnv) (CACert : Option tls.Certificate)
    (c : certCache) (h : String) (cert : tls.Certificate) (hhit : c.lookup h = some cert) :
    c.GetCertificate env CACert { ServerName := h } =
      { cache := { cache := (c.cache.Get h).1 }, ret := .ok cert, mints := [] } := by
  have h2 : (c.cache.Get h).2 = some cert := (lru.ARCCache.Get_spec c.cache h).1.trans hhit
  unfold certCache.GetCertificate
  rcases hg : c.cache.Get h with ⟨cache, r⟩
  rw [hg] at h2
  dsimp only at h2 ⊢
  subst h2
  rw [hg]

/-- The miss path of `GetCertificate`, as an equation. -/
theorem certCache.GetCertificate_of_miss (env : MintEnv) (CACert : Option tls.Certificate)
    (c : certCache) (h : String) (hmiss : c.lookup h = none) :
    c.GetCertificate env CACert { ServerName := h } =
      match makeCert env CACert h with
      | .panic reason => { cache := c, ret := .panic reason, mints := [(CACert, h)] }
      | .error err => { cache := c, ret := .error err, mints := [(CACert, h)] }
      | .ok cert =>
        { cache := { cache := c.cache.Add h cert }, ret := .ok cert, mints := [(CACert, h)] } := by
  unfold certCache.GetCertificate
  dsimp only
  rw [lru.ARCCache.Get_miss hmiss]

/-- C1. A hit: for every cache and every hostname `h` that the cache maps
to a certificate `cert`, `GetCertificate` with `ServerName = h` returns
exactly `cert` with a nil error, makes no call of `makeCert`, and leaves the
hostname-to-certificate mapping of the cache unchanged. -/
theorem GetCertificate_hit (env : MintEnv) (CACert : Option tls.Certificate)
    (c : certCache) (h : String) (cert : tls.Certificate) (hhit : c.lookup h = some cert) :
    (c.GetCertificate env CACert { ServerName := h }).ret = .ok cert ∧
      (c.GetCertificate env CACert { ServerName := h }).mints = [] ∧
      ∀ k, (c.GetCertificate env CACert { ServerName := h }).cache.lookup k = c.lookup k := by
  rw [certCache.GetCertificate_of_hit env CACert c h cert hhit]
  exact ⟨rfl, rfl, (lru.ARCCache.Get_spec c.cache h).2⟩

/-- C2. A failed mint: for every cache and every hostname `h` not in the
cache, if `makeCert(CACert, h)` fails with error `e` then `GetCertificate`
returns `(nil, e)`, with `e` unchanged, and the cache afterwards is exactly
the cache before the call: nothing is inserted, for `h` or any other name. -/
theorem GetCertificate_mint_failure (env : MintEnv) (CACert : Option tls.Certificate)
    (c : certCache) (h : String) (e : Error) (hmiss : c.lookup h = none)
    (hfail : makeCert env CACert h = .error e) :
    (c.GetCertificate env CACert { ServerName := h }).ret = .error e ∧
      (c.GetCertificate env CACert { ServerName := h }).cache = c ∧
      ∀ k, (c.GetCertificate env CACert { ServerName := h }).cache.lookup k = c.lookup k := by
  rw [certCache.GetCertificate_of_miss env CACert c h hmiss, hfail]
  exact ⟨rfl, rfl, fun _ => rfl⟩

/-- After a successful call for `h` the cache maps `h` to what was returned. -/
theorem certCache.lookup_after_GetCertificate (env : MintEnv)
    (CACert : Option tls.Certificate) (c : certCache) (h : String) (cert : tls.Certificate)
    (hok : (c.GetCertificate env CACert { ServerName := h }).ret = .ok cert) :
    (c.GetCertificate env CACert { ServerName := h }).cache.lookup h = some cert := by
  cases hl : c.lookup h with
  | some v =>
    rw [certCache.GetCertificate_of_hit env CACert c h v hl] at hok ⊢
    have hv : v = cert := Result.ok.inj hok
    show (c.cache.Get h).1.lookup h = some cert
    rw [(lru.ARCCache.Get_spec c.cache h).2 h, ← hv]
    exact hl
  | none =>
    rw [certCache.GetCertificate_of_miss env CACert c h hl] at hok ⊢
    cases hm : makeCert env CACert h with
    | panic reason => simp [hm] at hok
    | error err => simp [hm] at hok
    | ok v =>
      have hv : v = cert := by simpa [hm] using hok
      subst hv
      exact lru.ARCCache.lookup_Add_self c.cache h v

/-- C3. Two calls in a row: for every cache and every hostname `h`, if
`GetCertificate(h)` succeeds and returns `cert`, then the call
`GetCertificate(h)` that follows immediately also succeeds, returns the
identical `cert`, and makes no call of `makeCert`, whatever the outside
world would deliver to one. -/
theorem GetCertificate_twice (env env2 : MintEnv) (CACert CACert2 : Option tls.Certificate)
    (c : certCache) (h : String) (cert : tls.Certificate)
    (hok : (c.GetCertificate env CACert { ServerName := h }).ret = .ok cert) :
    ((c.GetCertificate env CACert { ServerName := h }).cache.GetCertificate env2 CACert2
        { ServerName := h }).ret = .ok cert ∧
      ((c.GetCertificate env CACert { ServerName := h }).cache.GetCertificate env2 CACert2
        { ServerName := h }).mints = [] := by
  have hl := certCache.lookup_after_GetCertificate env CACert c h cert hok
  rw [certCache.GetCertificate_of_hit env2 CACert2 _ h cert hl]
  exact ⟨rfl, rfl⟩

/-! ## `makeCert` -/

/-- The body of `makeCert`, with the certificate structure named. -/
theorem makeCert_eq (env : MintEnv) (parent : Option tls.Certificate) (name : String) :
    makeCert env parent name =
      match env.GenerateKey with
      | .error err => .error (Errorf "failed to generate private key: " err)
      | .ok privKey =>
        match rand.Int env.Reader (big.Lsh 1 128) with
        | .panic reason => .panic reason
        | .error err => .error (Errorf "failed to generate serial number: " err)
        | .ok serialNumber =>
          match parent with
          | none => .panic "invalid memory address or nil pointer dereference"
          | some p =>
            match p.Certificate with
            | [] => .panic "index out of range"
            | der :: _ =>
              match env.ParseCertificate der with
              | .error err => .error err
              | .ok x509parent =>
                match env.CreateCertificate (leafTemplate (env.Now 0) serialNumber name)
                    x509parent privKey.Public p.PrivateKey with
                | .error err => .error (Errorf "could not create certificate: " err)
                | .ok derBytes =>
                  .ok { Certificate := [derBytes]
                        PrivateKey := crypto.PrivateKey.ecdsa privKey
                        Leaf := some (leafTemplate (env.Now 0) serialNumber name) } := by
  rfl

/-- A successful `makeCert` went through all of its steps: key, serial
number, parent certificate, signature. -/
theorem makeCert_ok {env : MintEnv} {parent : Option tls.Certificate} {name : String}
    {cert : tls.Certificate} (h : makeCert env parent name = .ok cert) :
    ∃ privKey serialNumber p der rest x509parent derBytes,
      env.GenerateKey = .ok privKey ∧
      rand.Int env.Reader (big.Lsh 1 128) = .ok serialNumber ∧
      parent = some p ∧ p.Certificate = der :: rest ∧
      env.ParseCertificate der = .ok x509parent ∧
      env.CreateCertificate (leafTemplate (env.Now 0) serialNumber name) x509parent
        privKey.Public p.PrivateKey = .ok derBytes ∧
      cert = { Certificate := [derBytes]
               PrivateKey := crypto.PrivateKey.ecdsa privKey
               Leaf := some (leafTemplate (env.Now 0) serialNumber name) } := by
  rw [makeCert_eq] at h
  cases hk : env.GenerateKey with
  | error err => simp [hk] at h
  | ok privKey =>
    cases hs : rand.Int env.Reader (big.Lsh 1 128) with
    | panic reason => simp [hk, hs] at h
    | error err => simp [hk, hs] at h
    | ok serialNumber =>
      cases parent with
      | none => simp [hk, hs] at h
      | some p =>
        cases hc : p.Certificate with
        | nil => simp [hk, hs, hc] at h
        | cons der rest =>
          cases hp : env.ParseCertificate der with
          | error err => simp [hk, hs, hc, hp] at h
          | ok x509parent =>
            cases hd : env.CreateCertificate (leafTemplate (env.Now 0) serialNumber name)
                x509parent privKey.Public p.PrivateKey with
            | error err => simp [hk, hs, hc, hp, hd] at h
            | ok derBytes =>
              simp only [hk, hs, hc, hp, hd] at h
              exact ⟨privKey, serialNumber, p, der, rest, x509parent, derBytes, rfl, rfl, rfl,
                hc, hp, hd, (Result.ok.inj h).symm⟩

/-! ## The validity window and the serial number -/

/-- The validity period `365 * 24 * time.Hour` is 31,536,000 seconds in
nanoseconds, and wrapping it to 64 bits changes nothing. -/
theorem validity_period :
    365 * 24 * time.Hour = 31536000 * 1000000000 ∧
      int64 (365 * 24 * time.Hour) = 365 * 24 * time.Hour ∧
      -(2 : Int) ^ 63 ≤ 365 * 24 * time.Hour ∧ 365 * 24 * time.Hour < (2 : Int) ^ 63 := by
  decide

theorem big.Lsh_one_128 : big.Lsh 1 128 = 2 ^ 128 := by
  simp [big.Lsh]

/-- The rejection loop only ever accepts a candidate below `max`. -/
theorem rand.draw_lt {max k b : Nat} {err : Error} {fuel : Nat} {tape : List Nat} {n : Nat}
    (h : rand.draw max k b err fuel tape = .ok n) : n < max := by
  induction fuel generalizing tape with
  | zero => simp [rand.draw] at h
  | succ fuel ih =>
    unfold rand.draw at h
    split at h
    · simp at h
    · dsimp only at h
      split at h
      · rename_i hlt
        have hn := Result.ok.inj h
        rw [← hn]
        exact hlt
      · exact ih h

/-- One round of the rejection loop. -/
theorem rand.draw_succ (max k b : Nat) (err : Error) (fuel : Nat) (tape : List Nat) :
    rand.draw max k b err (fuel + 1) tape =
      if tape.length < k then .error err
      else if big.SetBytes (rand.maskFirst b (tape.take k)) < max then
        .ok (big.SetBytes (rand.maskFirst b (tape.take k)))
      else rand.draw max k b err fuel (tape.drop k) := by
  rfl

/-- The rounds allowed to the rejection loop never run out before the bytes
do: every round takes `k > 0` bytes, so more rounds than there are bytes
change nothing. -/
theorem rand.draw_fuel (max k b : Nat) (err : Error) (hk : 0 < k) :
    ∀ (fuel : Nat) (tape : List Nat), tape.length < fuel →
      rand.draw max k b err (fuel + 1) tape = rand.draw max k b err fuel tape := by
  intro fuel
  induction fuel with
  | zero => intro tape h; omega
  | succ fuel ih =>
    intro tape h
    rw [rand.draw_succ max k b err (fuel + 1) tape, rand.draw_succ max k b err fuel tape]
    by_cases hlen : tape.length < k
    · rw [if_pos hlen, if_pos hlen]
    · rw [if_neg hlen, if_neg hlen]
      split
      · rfl
      · exact ih (tape.drop k) (by rw [List.length_drop]; omega)

/-- A value of bit length 0 is 0. -/
theorem big.BitLen_eq_zero {n : Nat} (h : big.BitLen n = 0) : n = 0 := by
  cases n with
  | zero => rfl
  | succ m => simp [big.BitLen, big.BitLen.go] at h

/-- The contract of `rand.Int`: a value it returns lies below `max`. -/
theorem rand.Int_lt {src : rand.Source} {max n : Nat} (h : rand.Int src max = .ok n) :
    n < max := by
  unfold rand.Int at h
  split at h
  · simp at h
  · rename_i hmax
    dsimp only at h
    split at h
    · rename_i hb
      have h0 := big.BitLen_eq_zero hb
      have hn := Result.ok.inj h
      omega
    · exact rand.draw_lt h

/-- A slice of `k` bytes encodes a value below `256 ^ k`. -/
theorem big.SetBytes_lt (bytes : List Nat) : big.SetBytes bytes < 256 ^ bytes.length := by
  have key : ∀ (l : List Nat) (acc : Nat),
      l.foldl (fun acc b => acc * 256 + b % 256) acc < (acc + 1) * 256 ^ l.length := by
    intro l
    induction l with
    | nil => intro acc; simp
    | cons b l ih =>
      intro acc
      have hb : b % 256 < 256 := Nat.mod_lt _ (by decide)
      have h1 := ih (acc * 256 + b % 256)
      have h2 : (acc * 256 + b % 256 + 1) * 256 ^ l.length ≤
          (acc + 1) * 256 * 256 ^ l.length :=
        Nat.mul_le_mul_right _ (by omega)
      calc List.foldl (fun acc b => acc * 256 + b % 256) acc (b :: l)
          = List.foldl (fun acc b => acc * 256 + b % 256) (acc * 256 + b % 256) l := rfl
        _ < (acc * 256 + b % 256 + 1) * 256 ^ l.length := h1
        _ ≤ (acc + 1) * 256 * 256 ^ l.length := h2
        _ = (acc + 1) * 256 ^ (b :: l).length := by
          rw [List.length_cons, pow_succ]; ring
  simpa [big.SetBytes] using key bytes 0

theorem rand.length_maskFirst (b : Nat) (l : List Nat) :
    (rand.maskFirst b l).length = l.length := by
  cases l <;> rfl

/-- With the bound `2 ^ 128` the draw reads 16 bytes once and never rejects:
it fails exactly when the source cannot deliver 16 bytes. -/
theorem rand.Int_serial (src : rand.Source) :
    rand.Int src (2 ^ 128) =
      if src.bytes.length < 16 then .error src.err
      else .ok (big.SetBytes (rand.maskFirst 8 (src.bytes.take 16))) := by
  have hb : big.BitLen (2 ^ 128 - 1) = 128 := by decide
  have hdraw : rand.Int src (2 ^ 128) =
      rand.draw (2 ^ 128) 16 8 src.err (src.bytes.length + 1) src.bytes := by
    unfold rand.Int
    rw [if_neg (by decide), hb]
    rfl
  rw [hdraw, rand.draw]
  by_cases hlen : src.bytes.length < 16
  · rw [if_pos hlen, if_pos hlen]
  · have hlt : big.SetBytes (rand.maskFirst 8 (src.bytes.take 16)) < 2 ^ 128 := by
      have h := big.SetBytes_lt (rand.maskFirst 8 (src.bytes.take 16))
      rw [rand.length_maskFirst, List.length_take, Nat.min_eq_left (Nat.le_of_not_lt hlen)] at h
      exact lt_of_lt_of_le h (by norm_num)
    rw [if_neg hlen, if_neg hlen]
    dsimp only
    rw [if_pos hlt]

/-- C9. The validity window: for every successful `makeCert` call the leaf
has `NotBefore` equal to the issuance time, the first reading of the clock,
and `NotAfter` equal to that time plus `365 * 24` hours, which is
31,536,000 seconds counted in nanoseconds and fits a signed 64-bit duration
unchanged; hence `NotBefore <= NotAfter`. -/
theorem makeCert_validity_window (env : MintEnv) (parent : Option tls.Certificate)
    (name : String) (cert : tls.Certificate) (h : makeCert env parent name = .ok cert) :
    ∃ leaf, cert.Leaf = some leaf ∧
      leaf.NotBefore = env.Now 0 ∧
      leaf.NotAfter = env.Now 0 + 365 * 24 * time.Hour ∧
      leaf.NotAfter = leaf.NotBefore + 31536000 * 1000000000 ∧
      int64 (365 * 24 * time.Hour) = 365 * 24 * time.Hour ∧
      365 * 24 * time.Hour < (2 : Int) ^ 63 ∧
      leaf.NotBefore ≤ leaf.NotAfter := by
  obtain ⟨privKey, serialNumber, p, der, rest, x509parent, derBytes, -, -, -, -, -, -, hcert⟩ :=
    makeCert_ok h
  obtain ⟨hv1, hv2, -, hv4⟩ := validity_period
  have hafter : (leafTemplate (env.Now 0) serialNumber name).NotAfter =
      env.Now 0 + 365 * 24 * time.Hour := by
    show env.Now 0 + int64 (365 * 24 * time.Hour) = _
    rw [hv2]
  refine ⟨leafTemplate (env.Now 0) serialNumber name, by rw [hcert], rfl, hafter, ?_, hv2, hv4, ?_⟩
  · rw [hafter, hv1]
    rfl
  · rw [hafter, hv1]
    exact le_add_of_nonneg_right (by norm_num)

/-- C10. The serial number: for every successful `makeCert` call the bound
handed to the random draw is 1 shifted left by 128 bits, which is `2 ^ 128`;
the value `s` drawn under that bound satisfies `0 <= s < 2 ^ 128` and is the
value stored in `SerialNumber`. -/
theorem makeCert_serial_range (env : MintEnv) (parent : Option tls.Certificate)
    (name : String) (cert : tls.Certificate) (h : makeCert env parent name = .ok cert) :
    big.Lsh 1 128 = 2 ^ 128 ∧
      ∃ leaf s, cert.Leaf = some leaf ∧
        rand.Int env.Reader (big.Lsh 1 128) = .ok s ∧
        leaf.SerialNumber = (s : Int) ∧
        0 ≤ leaf.SerialNumber ∧ leaf.SerialNumber < 2 ^ 128 := by
  obtain ⟨privKey, serialNumber, p, der, rest, x509parent, derBytes, -, hs, -, -, -, -, hcert⟩ :=
    makeCert_ok h
  have hlt : serialNumber < 2 ^ 128 := by
    have := rand.Int_lt hs
    rwa [big.Lsh_one_128] at this
  refine ⟨big.Lsh_one_128, leafTemplate (env.Now 0) serialNumber name, serialNumber,
    by rw [hcert], hs, rfl, ?_, ?_⟩
  · show (0 : Int) ≤ (serialNumber : Int)
    exact Int.ofNat_nonneg _
  · show (serialNumber : Int) < 2 ^ 128
    exact_mod_cast hlt

/-! ## Certificates are minted for the name they are stored under -/

theorem makeCert_mintedFor {env : MintEnv} {parent : Option tls.Certificate} {name : String}
    {cert : tls.Certificate} (h : makeCert env parent name = .ok cert) :
    MintedFor name cert := by
  obtain ⟨privKey, serialNumber, p, der, rest, x509parent, derBytes, -, -, -, -, -, -, hcert⟩ :=
    makeCert_ok h
  rw [hcert]
  rfl

/-- `GetCertificate` preserves the invariant, and what it returns for `h`
is minted for `h`. -/
theorem certCache.GetCertificate_sound (env : MintEnv) (CACert : Option tls.Certificate)
    (c : certCache) (h : String) (hc : c.Sound) :
    (c.GetCertificate env CACert { ServerName := h }).cache.Sound ∧
      ∀ cert, (c.GetCertificate env CACert { ServerName := h }).ret = .ok cert →
        MintedFor h cert := by
  cases hl : c.lookup h with
  | some v =>
    rw [certCache.GetCertificate_of_hit env CACert c h v hl]
    refine ⟨fun e he => hc e (lru.ARCCache.mem_Get he), fun cert hret => ?_⟩
    have hv : v = cert := Result.ok.inj hret
    exact hv ▸ hc (h, v) (lru.ARCCache.mem_of_lookup hl)
  | none =>
    rw [certCache.GetCertificate_of_miss env CACert c h hl]
    cases hm : makeCert env CACert h with
    | panic reason => exact ⟨hc, fun cert hret => by simp at hret⟩
    | error err => exact ⟨hc, fun cert hret => by simp at hret⟩
    | ok v =>
      have hv := makeCert_mintedFor hm
      refine ⟨fun e he => ?_, fun cert hret => ?_⟩
      · rcases lru.ARCCache.mem_Add he with rfl | he
        · exact hv
        · exact hc e he
      · have : v = cert := Result.ok.inj hret
        exact this ▸ hv

/-- The invariant holds along every sequence of calls, and every call that
succeeds returns a certificate minted for the name it was asked for. -/
theorem certCache.serve_sound (CACert : Option tls.Certificate) (calls : List (MintEnv × String)) :
    ∀ c : certCache, c.Sound →
      (c.serve CACert calls).1.Sound ∧
        ∀ (i : Nat) (env : MintEnv) (h : String) (cert : tls.Certificate),
          calls[i]? = some (env, h) →
          (c.serve CACert calls).2[i]? = some (Result.ok cert) → MintedFor h cert := by
  induction calls with
  | nil =>
    intro c hc
    exact ⟨hc, fun i env h cert hi => by simp at hi⟩
  | cons call rest ih =>
    intro c hc
    obtain ⟨env0, h0⟩ := call
    have hstep := certCache.GetCertificate_sound env0 CACert c h0 hc
    have hrest := ih _ hstep.1
    refine ⟨hrest.1, fun i env h cert hi hr => ?_⟩
    cases i with
    | zero =>
      have hi2 : (env0, h0) = (env, h) := by simpa using hi
      have hh : h0 = h := congrArg Prod.snd hi2
      have hr2 : (c.GetCertificate env0 CACert { ServerName := h0 }).ret = .ok cert := by
        simpa [certCache.serve] using hr
      exact hh ▸ hstep.2 cert hr2
    | succ j =>
      have hi2 : rest[j]? = some (env, h) := by simpa using hi
      have hr2 : ((c.GetCertificate env0 CACert { ServerName := h0 }).cache.serve CACert
          rest).2[j]? = some (.ok cert) := by
        simpa [certCache.serve] using hr
      exact hrest.2 j env h cert hi2 hr2

theorem NewCertCache_eq :
    NewCertCache =
      .ok { cache := { size := 1024, p := 0, t1 := [], b1 := [], t2 := [], b2 := [] } } := by
  rfl

/-- Every call of a sequence returns: there is one result per call. -/
theorem certCache.length_serve (CACert : Option tls.Certificate)
    (calls : List (MintEnv × String)) :
    ∀ c : certCache, (c.serve CACert calls).2.length = calls.length := by
  induction calls with
  | nil => intro c; rfl
  | cons call rest ih =>
    intro c
    obtain ⟨env0, h0⟩ := call
    simp [certCache.serve, ih]

/-- C4. Starting from the empty cache built by `NewCertCache`, along every
sequence of `GetCertificate` calls: every call that succeeds for hostname
`h` returns a certificate whose leaf has `DNSNames = [h]` and
`CommonName = h`; every entry the cache holds under a key `k` afterwards is
a certificate minted for `k`; and two successful calls for different
hostnames return leaves with different Subject Alternative Names. -/
theorem GetCertificate_names_from_new_cache (CACert : Option tls.Certificate)
    (c0 : certCache) (hnew : NewCertCache = .ok c0) (calls : List (MintEnv × String)) :
    (∀ (i : Nat) (env : MintEnv) (h : String) (cert : tls.Certificate),
        calls[i]? = some (env, h) →
        (c0.serve CACert calls).2[i]? = some (Result.ok cert) →
        ∃ leaf, cert.Leaf = some leaf ∧ leaf.DNSNames = [h] ∧ leaf.Subject.CommonName = h) ∧
      (∀ (k : String) (v : tls.Certificate),
        (c0.serve CACert calls).1.lookup k = some v → MintedFor k v) ∧
      (∀ (i j : Nat) (env1 env2 : MintEnv) (h1 h2 : String) (cert1 cert2 : tls.Certificate)
          (leaf1 leaf2 : x509.Certificate),
        calls[i]? = some (env1, h1) → calls[j]? = some (env2, h2) →
        (c0.serve CACert calls).2[i]? = some (Result.ok cert1) →
        (c0.serve CACert calls).2[j]? = some (Result.ok cert2) →
        cert1.Leaf = some leaf1 → cert2.Leaf = some leaf2 →
        h1 ≠ h2 → leaf1.DNSNames ≠ leaf2.DNSNames) := by
  have hc0 : c0.Sound := by
    have h0 := Result.ok.inj (NewCertCache_eq.symm.trans hnew)
    intro e he
    rw [← h0] at he
    simp at he
  have hs := certCache.serve_sound CACert calls c0 hc0
  have hleaf : ∀ (h : String) (cert : tls.Certificate), MintedFor h cert →
      ∃ leaf, cert.Leaf = some leaf ∧ leaf.DNSNames = [h] ∧ leaf.Subject.CommonName = h := by
    intro h cert hm
    unfold MintedFor at hm
    cases hl : cert.Leaf with
    | none => simp [hl] at hm
    | some leaf =>
      rw [hl] at hm
      have hp : (leaf.DNSNames, leaf.Subject.CommonName) = ([h], h) := by simpa using hm
      exact ⟨leaf, rfl, congrArg Prod.fst hp, congrArg Prod.snd hp⟩
  refine ⟨fun i env h cert hi hr => hleaf h cert (hs.2 i env h cert hi hr),
    fun k v hl => hs.1 (k, v) (lru.ARCCache.mem_of_lookup hl), ?_⟩
  intro i j env1 env2 h1 h2 cert1 cert2 leaf1 leaf2 hi hj hri hrj hl1 hl2 hne heq
  obtain ⟨l1, e1, d1, -⟩ := hleaf h1 cert1 (hs.2 i env1 h1 cert1 hi hri)
  obtain ⟨l2, e2, d2, -⟩ := hleaf h2 cert2 (hs.2 j env2 h2 cert2 hj hrj)
  have t1 : l1 = leaf1 := Option.some.inj (e1.symm.trans hl1)
  have t2 : l2 = leaf2 := Option.some.inj (e2.symm.trans hl2)
  rw [t1] at d1
  rw [t2] at d2
  rw [d1, d2] at heq
  exact hne (List.head_eq_of_cons_eq heq)

/-! ## Failure modes of `makeCert` -/

/-- Two wrapped errors whose fixed texts differ within their first `n`
characters are different errors, whatever they wrap. -/
theorem Errorf_ne_of_take_ne (a b : String) (n : Nat) (ha : n ≤ a.data.length)
    (hb : n ≤ b.data.length) (hne : a.data.take n ≠ b.data.take n) (e1 e2 : Error) :
    Errorf a e1 ≠ Errorf b e2 := by
  intro h
  have hm : (a ++ e1.msg).data = (b ++ e2.msg).data :=
    congrArg String.data (congrArg Error.msg h)
  rw [String.data_append, String.data_append] at hm
  have ht := congrArg (List.take n) hm
  rw [List.take_append_of_le_length ha, List.take_append_of_le_length hb] at ht
  exact hne ht

/-- An error whose text begins otherwise than the fixed text of a wrapped
error is not that wrapped error. -/
theorem ne_Errorf_of_take_ne (a : String) (n : Nat) (ha : n ≤ a.data.length) (e e1 : Error)
    (hne : e.msg.data.take n ≠ a.data.take n) : e ≠ Errorf a e1 := by
  intro h
  apply hne
  rw [h]
  show (a ++ e1.msg).data.take n = a.data.take n
  rw [String.data_append, List.take_append_of_le_length ha]

theorem Errorf_texts_distinct (e1 e2 e3 : Error) :
    Errorf "failed to generate private key: " e1 ≠
        Errorf "failed to generate serial number: " e2 ∧
      Errorf "failed to generate private key: " e1 ≠
        Errorf "could not create certificate: " e3 ∧
      Errorf "failed to generate serial number: " e2 ≠
        Errorf "could not create certificate: " e3 := by
  refine ⟨Errorf_ne_of_take_ne _ _ 20 (by decide) (by decide) (by decide) e1 e2,
    Errorf_ne_of_take_ne _ _ 1 (by decide) (by decide) (by decide) e1 e3,
    Errorf_ne_of_take_ne _ _ 1 (by decide) (by decide) (by decide) e2 e3⟩

/-- An error of the parser is none of the three errors `makeCert` wraps. -/
theorem x509.ParserMessage.ne_Errorf {ep : Error} (hp : x509.ParserMessage ep)
    (e1 e2 e3 : Error) :
    ep ≠ Errorf "failed to generate private key: " e1 ∧
      ep ≠ Errorf "failed to generate serial number: " e2 ∧
      ep ≠ Errorf "could not create certificate: " e3 := by
  have key : ∀ (a : String), 6 ≤ a.data.length → a.data.take 6 ≠ "x509: ".data →
      a.data.take 6 ≠ "asn1: ".data → ∀ e : Error, ep ≠ Errorf a e := by
    intro a ha hx hs e
    refine ne_Errorf_of_take_ne a 6 ha ep e ?_
    rcases hp with h | h
    · rw [h]
      exact fun heq => hx heq.symm
    · rw [h]
      exact fun heq => hs heq.symm
  exact ⟨key _ (by decide) (by decide) (by decide) e1,
    key _ (by decide) (by decide) (by decide) e2,
    key _ (by decide) (by decide) (by decide) e3⟩

/-- C8. The four failure modes of `makeCert`. For every CA identity (a pair
with a first certificate in its chain) and hostname: if key generation,
serial-number generation, parsing of the CA certificate or signing fails,
`makeCert` returns an error and no certificate, and no failure is swallowed.
A failure of key generation, of the serial number or of signing comes back
as the error of that step wrapped under "failed to generate private key: ",
"failed to generate serial number: " or "could not create certificate: ";
a failure of parsing comes back as the error of the parser. If none of the
four steps fails the result is a certificate and a nil error. The errors of
the four failure modes are pairwise different, whatever the errors of the
failing steps are, the error of the parser being a message of the library
(`x509.ParserMessage`). -/
theorem makeCert_failure_modes (env : MintEnv) (p : tls.Certificate) (der : List Nat)
    (rest : List (List Nat)) (name : String) (hp : p.Certificate = der :: rest) :
    (∀ e, env.GenerateKey = .error e →
        makeCert env (some p) name = .error (Errorf "failed to generate private key: " e)) ∧
      (∀ k e, env.GenerateKey = .ok k → rand.Int env.Reader (2 ^ 128) = .error e →
        makeCert env (some p) name = .error (Errorf "failed to generate serial number: " e)) ∧
      (∀ k n e, env.GenerateKey = .ok k → rand.Int env.Reader (2 ^ 128) = .ok n →
        env.ParseCertificate der = .error e → makeCert env (some p) name = .error e) ∧
      (∀ k n x e, env.GenerateKey = .ok k → rand.Int env.Reader (2 ^ 128) = .ok n →
        env.ParseCertificate der = .ok x →
        env.CreateCertificate (leafTemplate (env.Now 0) n name) x k.Public p.PrivateKey =
          .error e →
        makeCert env (some p) name = .error (Errorf "could not create certificate: " e)) ∧
      (∀ k n x d, env.GenerateKey = .ok k → rand.Int env.Reader (2 ^ 128) = .ok n →
        env.ParseCertificate der = .ok x →
        env.CreateCertificate (leafTemplate (env.Now 0) n name) x k.Public p.PrivateKey =
          .ok d →
        makeCert env (some p) name =
          .ok { Certificate := [d], PrivateKey := crypto.PrivateKey.ecdsa k,
                Leaf := some (leafTemplate (env.Now 0) n name) }) ∧
      (∀ e1 e2 ep e3 : Error, x509.ParserMessage ep →
        Errorf "failed to generate private key: " e1 ≠
            Errorf "failed to generate serial number: " e2 ∧
          Errorf "failed to generate private key: " e1 ≠ ep ∧
          Errorf "failed to generate private key: " e1 ≠
            Errorf "could not create certificate: " e3 ∧
          Errorf "failed to generate serial number: " e2 ≠ ep ∧
          Errorf "failed to generate serial number: " e2 ≠
            Errorf "could not create certificate: " e3 ∧
          ep ≠ Errorf "could not create certificate: " e3) := by
  have hL : big.Lsh 1 128 = 2 ^ 128 := big.Lsh_one_128
  refine ⟨?_, ?_, ?_, ?_, ?_, ?_⟩
  · intro e hk
    rw [makeCert_eq, hk]
  · intro k e hk hs
    rw [makeCert_eq, hk, hL, hs]
  · intro k n e hk hs hx
    rw [makeCert_eq, hk, hL, hs]
    simp only [hp, hx]
  · intro k n x e hk hs hx hc
    rw [makeCert_eq, hk, hL, hs]
    simp only [hp, hx, hc]
  · intro k n x d hk hs hx hc
    rw [makeCert_eq, hk, hL, hs]
    simp only [hp, hx, hc]
  · intro e1 e2 ep e3 hlib
    obtain ⟨h12, h13, h23⟩ := Errorf_texts_distinct e1 e2 e3
    obtain ⟨hp1, hp2, hp3⟩ := x509.ParserMessage.ne_Errorf hlib e1 e2 e3
    exact ⟨h12, hp1.symm, h13, hp2.symm, h23, hp3⟩

/-! ## `SetupOurCert` -/

/-- The load path of `SetupOurCert`, as an equation. -/
theorem SetupOurCert_of_load {W : Type} (env : SetupEnv W) (w w1 : W)
    (CACert : Option tls.Certificate) (p : tls.Certificate)
    (hdir : env.MkdirAll w env.dir 0o700 = (w1, none))
    (hload : env.LoadX509KeyPair w1 (env.Join env.dir "cert.pem")
      (env.Join env.dir "key.pem") = .ok p) :
    SetupOurCert env w CACert =
      { world := w1
        CACert := some p
        err := none
        calls := [Call.MkdirAll env.dir 0o700,
          Call.LoadX509KeyPair (env.Join env.dir "cert.pem") (env.Join env.dir "key.pem")] } := by
  unfold SetupOurCert
  simp only [hdir, hload]

/-- C7. An existing pair: for every run of `SetupOurCert` in which the
directory can be created and the key and certificate files load as the pair
`p`, `SetupOurCert` returns nil, sets `CACert` to exactly `p`, and calls
neither the generation command nor the trust installer. -/
theorem SetupOurCert_existing_pair {W : Type} (env : SetupEnv W) (w w1 : W)
    (CACert : Option tls.Certificate) (p : tls.Certificate)
    (hdir : env.MkdirAll w env.dir 0o700 = (w1, none))
    (hload : env.LoadX509KeyPair w1 (env.Join env.dir "cert.pem")
      (env.Join env.dir "key.pem") = .ok p) :
    (SetupOurCert env w CACert).err = none ∧
      (SetupOurCert env w CACert).CACert = some p ∧
      (∀ call ∈ (SetupOurCert env w CACert).calls,
        (∀ script, call ≠ Call.Run script) ∧ (∀ cert, call ≠ Call.TrustCert cert)) := by
  rw [SetupOurCert_of_load env w w1 CACert p hdir hload]
  refine ⟨rfl, rfl, ?_⟩
  intro call hcall
  simp only [List.mem_cons, List.mem_singleton, List.not_mem_nil, or_false] at hcall
  rcases hcall with rfl | rfl <;> exact ⟨fun _ => Call.noConfusion, fun _ => Call.noConfusion⟩

/-- The generation path of `SetupOurCert`, as an equation: when the pair
cannot be loaded and the generation command succeeds, the result is that of
the trust installer, `CACert` is left as it was, and the calls made are the
four listed, each once. -/
theorem SetupOurCert_of_generation {W : Type} (env : SetupEnv W) (w w1 w2 : W)
    (CACert : Option tls.Certificate) (e : Error)
    (hdir : env.MkdirAll w env.dir 0o700 = (w1, none))
    (hload : env.LoadX509KeyPair w1 (env.Join env.dir "cert.pem")
      (env.Join env.dir "key.pem") = .error e)
    (hrun : env.Run w1 (opensslCommand (env.Join env.dir "key.pem")
      (env.Join env.dir "cert.pem")) = (w2, none)) :
    SetupOurCert env w CACert =
      { world := (env.TrustCert w2 (env.Join env.dir "cert.pem")).1
        CACert := CACert
        err := (env.TrustCert w2 (env.Join env.dir "cert.pem")).2
        calls := [Call.MkdirAll env.dir 0o700,
          Call.LoadX509KeyPair (env.Join env.dir "cert.pem") (env.Join env.dir "key.pem"),
          Call.Run (opensslCommand (env.Join env.dir "key.pem") (env.Join env.dir "cert.pem")),
          Call.TrustCert (env.Join env.dir "cert.pem")] } := by
  unfold SetupOurCert
  simp only [hdir, hload, hrun]

/-- C6, as the code has it. When the pair cannot be loaded and the
generation command succeeds, `SetupOurCert` calls the trust installer once,
with the path of the certificate, and returns what the installer returns:
nil when it succeeds, its error, unchanged, when it fails. -/
theorem SetupOurCert_returns_TrustCert {W : Type} (env : SetupEnv W) (w w1 w2 : W)
    (CACert : Option tls.Certificate) (e : Error)
    (hdir : env.MkdirAll w env.dir 0o700 = (w1, none))
    (hload : env.LoadX509KeyPair w1 (env.Join env.dir "cert.pem")
      (env.Join env.dir "key.pem") = .error e)
    (hrun : env.Run w1 (opensslCommand (env.Join env.dir "key.pem")
      (env.Join env.dir "cert.pem")) = (w2, none)) :
    (SetupOurCert env w CACert).err = (env.TrustCert w2 (env.Join env.dir "cert.pem")).2 ∧
      (SetupOurCert env w CACert).calls.count
        (Call.TrustCert (env.Join env.dir "cert.pem")) = 1 := by
  rw [SetupOurCert_of_generation env w w1 w2 CACert e hdir hload hrun]
  refine ⟨rfl, ?_⟩
  simp [List.count_cons]

/-- C6, counterexample: the pair cannot be loaded, the generation command
succeeds, the trust installer fails, and `SetupOurCert` returns the error
of the trust installer instead of nil. -/
theorem SetupOurCert_trust_failure_is_returned :
    (sampleSetup (some { msg := "exit status 1" })).LoadX509KeyPair false
        "/home/dev/.puma-dev/cert.pem" "/home/dev/.puma-dev/key.pem" =
        .error { msg := "open cert.pem: no such file or directory" } ∧
      (sampleSetup (some { msg := "exit status 1" })).Run false
        (opensslCommand "/home/dev/.puma-dev/key.pem" "/home/dev/.puma-dev/cert.pem") =
        (true, none) ∧
      (sampleSetup (some { msg := "exit status 1" })).TrustCert true
        "/home/dev/.puma-dev/cert.pem" = (true, some { msg := "exit status 1" }) ∧
      (SetupOurCert (sampleSetup (some { msg := "exit status 1" })) false none).err =
        some { msg := "exit status 1" } ∧
      (SetupOurCert (sampleSetup (some { msg := "exit status 1" })) false none).err ≠ none := by
  refine ⟨rfl, rfl, rfl, ?_, ?_⟩ <;> decide

/-- C5, the code at the failing input: on a directory without the pair,
with the generation command and the trust installer both succeeding,
`SetupOurCert` runs the generation command exactly once and returns nil,
the generated files now load as `sampleCA`, yet `CACert` is still nil: the
generated pair is never loaded. The first `GetCertificate` of a new
hostname then dereferences the nil `CACert` and panics. -/
theorem SetupOurCert_generation_leaves_CACert_nil :
    (SetupOurCert (sampleSetup none) false none).err = none ∧
      (SetupOurCert (sampleSetup none) false none).calls.count
        (Call.Run (opensslCommand "/home/dev/.puma-dev/key.pem"
          "/home/dev/.puma-dev/cert.pem")) = 1 ∧
      (sampleSetup none).LoadX509KeyPair (SetupOurCert (sampleSetup none) false none).world
        "/home/dev/.puma-dev/cert.pem" "/home/dev/.puma-dev/key.pem" = .ok sampleCA ∧
      (SetupOurCert (sampleSetup none) false none).CACert = none ∧
      (emptyCache.GetCertificate sampleEnv
        (SetupOurCert (sampleSetup none) false none).CACert { ServerName := "a.test" }).ret =
        .panic "invalid memory address or nil pointer dereference" := by
  refine ⟨?_, ?_, rfl, ?_, ?_⟩ <;> decide

/-! ## The theorems at concrete inputs -/

/-- C1 at `warmCache`, which maps `a.test` to `sampleLeaf`. -/
theorem GetCertificate_hit_witness :
    warmCache.lookup "a.test" = some sampleLeaf ∧
      (warmCache.GetCertificate sampleEnv (some sampleCA) { ServerName := "a.test" }).ret =
        .ok sampleLeaf ∧
      (warmCache.GetCertificate sampleEnv (some sampleCA) { ServerName := "a.test" }).mints =
        [] ∧
      ∀ k, (warmCache.GetCertificate sampleEnv (some sampleCA)
        { ServerName := "a.test" }).cache.lookup k = warmCache.lookup k :=
  ⟨by decide, GetCertificate_hit sampleEnv (some sampleCA) warmCache "a.test" sampleLeaf
    (by decide)⟩

/-- C2 at `warmCache` and the hostname `b.test`, with key generation failing. -/
theorem GetCertificate_mint_failure_witness :
    warmCache.lookup "b.test" = none ∧
      makeCert keyFailsEnv (some sampleCA) "b.test" =
        .error { msg := "failed to generate private key: EOF" } ∧
      (warmCache.GetCertificate keyFailsEnv (some sampleCA) { ServerName := "b.test" }).ret =
        .error { msg := "failed to generate private key: EOF" } ∧
      (warmCache.GetCertificate keyFailsEnv (some sampleCA) { ServerName := "b.test" }).cache =
        warmCache :=
  ⟨by decide, by decide,
    (GetCertificate_mint_failure keyFailsEnv (some sampleCA) warmCache "b.test"
      { msg := "failed to generate private key: EOF" } (by decide) (by decide)).1,
    (GetCertificate_mint_failure keyFailsEnv (some sampleCA) warmCache "b.test"
      { msg := "failed to generate private key: EOF" } (by decide) (by decide)).2.1⟩

/-- C3 at the empty cache: the first call mints `sampleLeaf`, the second
returns it although key generation would now fail. -/
theorem GetCertificate_twice_witness :
    (emptyCache.GetCertificate sampleEnv (some sampleCA) { ServerName := "a.test" }).ret =
        .ok sampleLeaf ∧
      ((emptyCache.GetCertificate sampleEnv (some sampleCA)
          { ServerName := "a.test" }).cache.GetCertificate keyFailsEnv none
          { ServerName := "a.test" }).ret = .ok sampleLeaf ∧
      ((emptyCache.GetCertificate sampleEnv (some sampleCA)
          { ServerName := "a.test" }).cache.GetCertificate keyFailsEnv none
          { ServerName := "a.test" }).mints = [] :=
  ⟨by decide, GetCertificate_twice sampleEnv keyFailsEnv (some sampleCA) none emptyCache
    "a.test" sampleLeaf (by decide)⟩

/-- C4 at the calls `a.test`, `b.test`, `a.test` on the new cache. -/
theorem GetCertificate_names_from_new_cache_witness :
    NewCertCache = .ok emptyCache ∧
      ∀ (i : Nat) (env : MintEnv) (h : String) (cert : tls.Certificate),
        [(sampleEnv, "a.test"), (sampleEnv, "b.test"), (sampleEnv, "a.test")][i]? =
          some (env, h) →
        (emptyCache.serve (some sampleCA)
          [(sampleEnv, "a.test"), (sampleEnv, "b.test"), (sampleEnv, "a.test")]).2[i]? =
          some (Result.ok cert) →
        ∃ leaf, cert.Leaf = some leaf ∧ leaf.DNSNames = [h] ∧ leaf.Subject.CommonName = h :=
  ⟨rfl, (GetCertificate_names_from_new_cache (some sampleCA) emptyCache rfl
    [(sampleEnv, "a.test"), (sampleEnv, "b.test"), (sampleEnv, "a.test")]).1⟩

/-- C6 as the code has it, at a world in which the trust installer fails. -/
theorem SetupOurCert_returns_TrustCert_witness :
    (SetupOurCert (sampleSetup (some { msg := "exit status 1" })) false none).err =
        some { msg := "exit status 1" } ∧
      (SetupOurCert (sampleSetup (some { msg := "exit status 1" })) false none).calls.count
        (Call.TrustCert "/home/dev/.puma-dev/cert.pem") = 1 :=
  SetupOurCert_returns_TrustCert (sampleSetup (some { msg := "exit status 1" })) false false
    true none { msg := "open cert.pem: no such file or directory" } rfl rfl rfl

/-- C7 at a world in which the two files hold `sampleCA`. -/
theorem SetupOurCert_existing_pair_witness :
    (SetupOurCert (sampleSetup none) true none).err = none ∧
      (SetupOurCert (sampleSetup none) true none).CACert = some sampleCA ∧
      (∀ call ∈ (SetupOurCert (sampleSetup none) true none).calls,
        (∀ script, call ≠ Call.Run script) ∧ (∀ cert, call ≠ Call.TrustCert cert)) :=
  SetupOurCert_existing_pair (sampleSetup none) true true none sampleCA rfl rfl

/-- C8 at `sampleCA`, whose chain has a first certificate: in
`parseFailsEnv` the error of the parser comes back as it is, in
`signFailsEnv` the error of the signer comes back wrapped, and the two
differ. -/
theorem makeCert_failure_modes_witness :
    sampleCA.Certificate = [48, 130, 3, 9] :: [] ∧
      makeCert parseFailsEnv (some sampleCA) "a.test" =
        .error { msg := "x509: malformed certificate" } ∧
      makeCert signFailsEnv (some sampleCA) "a.test" =
        .error (Errorf "could not create certificate: " { msg := "boom" }) ∧
      ({ msg := "x509: malformed certificate" } : Error) ≠
        Errorf "could not create certificate: " { msg := "boom" } :=
  ⟨rfl,
    (makeCert_failure_modes parseFailsEnv sampleCA [48, 130, 3, 9] [] "a.test" rfl).2.2.1
      { D := 3, X := 5, Y := 7 } 1339673755198158349044581307228491536
      { msg := "x509: malformed certificate" } rfl (by decide) rfl,
    (makeCert_failure_modes signFailsEnv sampleCA [48, 130, 3, 9] [] "a.test" rfl).2.2.2.1
      { D := 3, X := 5, Y := 7 } 1339673755198158349044581307228491536 sampleIssuer
      { msg := "boom" } rfl (by decide) rfl rfl,
    ((makeCert_failure_modes signFailsEnv sampleCA [48, 130, 3, 9] [] "a.test" rfl).2.2.2.2.2
      { msg := "EOF" } { msg := "EOF" } { msg := "x509: malformed certificate" }
      { msg := "boom" } (by decide)).2.2.2.2.2⟩

/-- C9 at `sampleEnv`: issued at 1,700,000,000 s, valid until 1,731,536,000 s. -/
theorem makeCert_validity_window_witness :
    makeCert sampleEnv (some sampleCA) "a.test" = .ok sampleLeaf ∧
      ∃ leaf, sampleLeaf.Leaf = some leaf ∧
        leaf.NotBefore = 1700000000000000000 ∧
        leaf.NotAfter = 1700000000000000000 + 365 * 24 * time.Hour ∧
        leaf.NotAfter = leaf.NotBefore + 31536000 * 1000000000 ∧
        int64 (365 * 24 * time.Hour) = 365 * 24 * time.Hour ∧
        365 * 24 * time.Hour < (2 : Int) ^ 63 ∧
        leaf.NotBefore ≤ leaf.NotAfter :=
  ⟨by decide, makeCert_validity_window sampleEnv (some sampleCA) "a.test" sampleLeaf
    (by decide)⟩

/-- C10 at `sampleEnv`: the 16 bytes 1, 2, ..., 16 give the serial number. -/
theorem makeCert_serial_range_witness :
    makeCert sampleEnv (some sampleCA) "a.test" = .ok sampleLeaf ∧
      big.Lsh 1 128 = 2 ^ 128 ∧
      ∃ leaf s, sampleLeaf.Leaf = some leaf ∧
        rand.Int sampleEnv.Reader (big.Lsh 1 128) = .ok s ∧
        leaf.SerialNumber = (s : Int) ∧
        0 ≤ leaf.SerialNumber ∧ leaf.SerialNumber < 2 ^ 128 :=
  ⟨by decide, makeCert_serial_range sampleEnv (some sampleCA) "a.test" sampleLeaf (by decide)⟩

end PumaDev
